import Mathlib

/-!
Formal model of the jak request-orchestration core, embedded shallowly from
the Go sources:

* `internal/rule/config.go` — request/config data model and validation
* `internal/chain/dependency.go` — dependency resolver (graph build, cycle
  detection, execution-order computation)
* `internal/chain/request.go` — variable resolver (bounded recursive
  `${name}` substitution) and request processor
* `internal/chain/executor.go` — chain executor
* the variable extractor (`ExtractVariables`) of the chain package
* `internal/engine/runner.go` — batch executor (sequential and concurrent)

Modelling conventions, used uniformly below:

* Go maps become association lists with *prepend* on insert and
  first-match lookup, which reproduces Go's last-write-wins semantics.
* Wherever Go ranges over a map (whose iteration order is unspecified) the
  model takes the iteration order as an explicit `List String` parameter;
  theorems quantify over that order.
* A Go `context.Context` is modelled by the `Bool` observed at each
  `ctx.Done()` check (`true` = cancelled); for checks at different times a
  function from the check index supplies the observations.
* Errors are modelled by their identity under Go's `errors.Is`:
  `fmt.Errorf(".. %w", e)` message wrapping that adds no new sentinel is
  dropped, while wrappers the code matches on are explicit constructors.
* External collaborators (HTTP transport, gjson) are parameters: the
  transport outcome of each request and the JSON path lookup are supplied
  as functions, never fixed by the model.
* Go `len` on strings counts bytes; the model counts characters, which
  agrees on the ASCII inputs used by all concrete instances here.
-/

namespace Jak

/-! ## Data model (`internal/rule/config.go`) -/

/-- Model of `rule.Request`: one HTTP request description. `Option String` models the
Go `*string` body fields (`none` = nil pointer); `dependsOn = ""` means no
dependency, exactly as in the Go struct. -/
structure Request where
  name : String := ""
  method : String := ""
  path : String := ""
  headers : List String := []
  rawBody : Option String := none
  formBody : Option String := none
  jsonBody : Option String := none
  extract : List (String × String) := []
  dependsOn : String := ""
deriving Repr, DecidableEq, Inhabited

/-- Model of `rule.Config`: global settings plus the ordered request list. -/
structure Config where
  baseUrl : String := ""
  ignoreFail : Bool := false
  concurrency : Bool := false
  request : List Request := []
deriving Repr, DecidableEq, Inhabited

/-- Which validation check failed; mirrors the distinct `fmt.Errorf` messages
of `config.go`. -/
inductive ConfigError where
  | missingBaseUrl
  | noRequests
  | emptyName (index : Nat)
  | duplicateName (name : String)
  | missingMethod (name : String)
  | missingPath (name : String)
  | multipleBodyTypes (name : String)
deriving Repr, DecidableEq

/-- Go's `req.X != nil && *req.X != ""` test on a `*string` body field. -/
def isNonEmptyOpt : Option String → Bool
  | none => false
  | some v => v ≠ ""

/-- Model of `validateRequestBody`: counts populated body variants (json, form, raw in
that order) and rejects more than one. -/
def validateRequestBody (req : Request) : Except ConfigError Unit :=
  let bodyCount :=
    (if isNonEmptyOpt req.jsonBody then 1 else 0) +
    (if isNonEmptyOpt req.formBody then 1 else 0) +
    (if isNonEmptyOpt req.rawBody then 1 else 0)
  if bodyCount > 1 then .error (.multipleBodyTypes req.name) else .ok ()

/-- Model of `validateRequestName`: name present and not seen before; returns the
updated name set on success (the Go code mutates `nameSet`). -/
def validateRequestName (name : String) (index : Nat) (nameSet : List String) :
    Except ConfigError (List String) :=
  if name = "" then .error (.emptyName index)
  else if name ∈ nameSet then .error (.duplicateName name)
  else .ok (name :: nameSet)

/-- Model of `validateRequestBasics`: method and path must be present. -/
def validateRequestBasics (req : Request) : Except ConfigError Unit :=
  if req.method = "" then .error (.missingMethod req.name)
  else if req.path = "" then .error (.missingPath req.name)
  else .ok ()

/-- Model of `validateRequest`: name, then basics, then body. Returns the grown name
set so the caller can thread it through the loop. -/
def validateRequest (req : Request) (index : Nat) (nameSet : List String) :
    Except ConfigError (List String) := do
  let nameSet ← validateRequestName req.name index nameSet
  let _ ← validateRequestBasics req
  let _ ← validateRequestBody req
  .ok nameSet

/-- The loop body of `validateRequests`, threading the index and name set. -/
def validateRequestsLoop : List Request → Nat → List String → Except ConfigError Unit
  | [], _, _ => .ok ()
  | req :: rest, i, nameSet => do
    let nameSet ← validateRequest req i nameSet
    validateRequestsLoop rest (i + 1) nameSet

/-- Model of `Config.validateRequests`. -/
def validateRequests (c : Config) : Except ConfigError Unit :=
  validateRequestsLoop c.request 0 []

/-- Model of `Config.validateBaseConfig`: base URL present and at least one request. -/
def validateBaseConfig (c : Config) : Except ConfigError Unit :=
  if c.baseUrl = "" then .error .missingBaseUrl
  else if c.request.length = 0 then .error .noRequests
  else .ok ()

/-- Model of `Config.Validate`. -/
def Config.Validate (c : Config) : Except ConfigError Unit := do
  let _ ← validateBaseConfig c
  validateRequests c

/-! ### Validation lemmas for C9 -/

/-- If the request loop succeeds, every listed request passed the body check. -/
theorem validateRequestsLoop_ok_body {l : List Request} {i : Nat} {s : List String}
    (h : validateRequestsLoop l i s = .ok ()) :
    ∀ req ∈ l, validateRequestBody req = .ok () := by
  induction l generalizing i s with
  | nil => intro req hreq; cases hreq
  | cons hd tl ih =>
    intro req hreq
    simp only [validateRequestsLoop, bind, Except.bind] at h
    cases hv : validateRequest hd i s with
    | error e => rw [hv] at h; cases h
    | ok s' =>
      rw [hv] at h
      rw [List.mem_cons] at hreq
      rcases hreq with rfl | hreq
      · simp only [validateRequest, bind, Except.bind] at hv
        cases hn : validateRequestName req.name i s with
        | error e => rw [hn] at hv; cases hv
        | ok s1 =>
          rw [hn] at hv
          cases hb : validateRequestBasics req with
          | error e => rw [hb] at hv; cases hv
          | ok _ =>
            rw [hb] at hv
            cases hbody : validateRequestBody req with
            | error e => rw [hbody] at hv; cases hv
            | ok u => cases u; rfl
      · exact ih h req hreq

/-- A request with two populated bodies fails the body check. -/
theorem validateRequestBody_two (req : Request)
    (hj : isNonEmptyOpt req.jsonBody = true) (hf : isNonEmptyOpt req.formBody = true) :
    validateRequestBody req = .error (.multipleBodyTypes req.name) := by
  cases hr : isNonEmptyOpt req.rawBody <;> simp [validateRequestBody, hj, hf, hr]

/-- C9: a request with two populated body variants makes `Config.Validate`
fail: the run is rejected at validation time, before any request executes.
The theorem quantifies over every config containing such a request; whatever
the other requests look like, validation returns some error. -/
theorem C9_validate_rejects_double_body (c : Config) (req : Request)
    (hmem : req ∈ c.request)
    (hj : isNonEmptyOpt req.jsonBody = true) (hf : isNonEmptyOpt req.formBody = true) :
    ∃ e, c.Validate = .error e := by
  cases hb : validateBaseConfig c with
  | error e => exact ⟨e, by simp [Config.Validate, bind, Except.bind, hb]⟩
  | ok u =>
    cases u
    cases hr : validateRequests c with
    | error e => exact ⟨e, by simp [Config.Validate, bind, Except.bind, hb, hr]⟩
    | ok u =>
      cases u
      exfalso
      have hbody := validateRequestsLoop_ok_body hr req hmem
      rw [validateRequestBody_two req hj hf] at hbody
      cases hbody

/-- A concrete config for the C9 witness: one request carrying both a JSON
and a form body. -/
def cfgDoubleBody : Config :=
  { baseUrl := "http://example.com"
    request := [{ name := "r1", method := "POST", path := "/a"
                  jsonBody := some "\x7b\"k\":1\x7d", formBody := some "k=1" }] }

/-- Witness for C9 at a concrete config. -/
theorem C9_validate_rejects_double_body_witness :
    ∃ e, cfgDoubleBody.Validate = .error e :=
  C9_validate_rejects_double_body cfgDoubleBody
    (cfgDoubleBody.request.get ⟨0, by decide⟩) (by decide) (by decide) (by decide)

/-! ## Error identities (`internal/sys_error`, chain/engine wrapping)

`Err` stands for a Go error up to the structure `errors.Is` can observe:
sentinel values are constructors, and `fmt.Errorf("...: %w", e)` wrapping
that keeps the sentinel reachable is the `wrapped` constructor. -/

/-- Error model: sentinels plus `%w` wrapping. `transport msg` stands for an
opaque failure returned by the external HTTP client. -/
inductive Err where
  | ctxCancelled
  | unknownDependency
  | cyclicDependency
  | pathNotFound
  | nilResponse
  | responseTooLarge
  | emptyVariableName
  | transport (msg : String)
  | maxRecursionDepth
  | wrapped (msg : String) (e : Err)
deriving Repr, DecidableEq

/-- The innermost sentinel of a wrapped error: `errors.Is e.base` holds of
`e` in Go terms. -/
def Err.base : Err → Err
  | .wrapped _ e => e.base
  | e => e

/-! ## Dependency resolver (`internal/chain/dependency.go`)

The resolver state `dr.requests` / `dr.dependsOn` are Go maps; the model
keeps the `dependsOn` map as an association list with prepend-insert (so
`List.lookup` sees the last write) and takes every map-range iteration
order as an explicit parameter. The `dr.dependencies` (parent → children)
map is written but never read by the modelled operations, so it is not
carried. -/

/-- The loop of `buildDependencyMaps`: iterates the config's request list in
slice order; a nonempty `dependsOn` must name an existing request (checked
against the full request index, so forward references are fine), else
`ErrUnknownDependency`; each edge is recorded in the `dependsOn` map. -/
def buildDependsOnLoop (allReqs : List Request) :
    List Request → List (String × String) → Except Err (List (String × String))
  | [], acc => .ok acc
  | req :: rest, acc =>
    if req.dependsOn ≠ "" then
      if allReqs.any (fun r => r.name = req.dependsOn) then
        buildDependsOnLoop allReqs rest ((req.name, req.dependsOn) :: acc)
      else .error (.wrapped ("request " ++ req.name ++ " depends on unknown request")
                           .unknownDependency)
    else buildDependsOnLoop allReqs rest acc

/-- Model of `hasCycle`: walk the single-parent chain, marking the walked names;
revisiting one signals a cycle. The Go recursion needs no fuel (every step
marks a fresh name); the model's `fuel` only makes the recursion
structural, and callers pass enough for the answer to agree. -/
def hasCycleF (dep : String → Option String) : Nat → String → List String → Bool
  | 0, _, _ => true
  | fuel + 1, node, visited =>
    if node ∈ visited then true
    else
      match dep node with
      | none => false
      | some d => hasCycleF dep fuel d (node :: visited)

/-- Model of `detectCycles`: checks every request name (map iteration order is the
list argument), each walk starting from an empty visited set. -/
def detectCycles (dep : String → Option String) (fuel : Nat) :
    List String → Except Err Unit
  | [] => .ok ()
  | name :: rest =>
    if hasCycleF dep fuel name [] then
      .error (.wrapped ("cyclic dependency detected with request " ++ name)
                       .cyclicDependency)
    else detectCycles dep fuel rest

/-- Model of `BuildRequestGraph`: index the requests, then `buildDependencyMaps`
(dependency loop + `detectCycles`). `ctxDone` is the value both early
context checks observe; `keyOrder` is the iteration order of the `dr.requests` map
inside `detectCycles`. Returns the built `dependsOn` map. -/
def BuildRequestGraph (ctxDone : Bool) (keyOrder : List String) (config : Config) :
    Except Err (List (String × String)) :=
  if ctxDone then .error .ctxCancelled
  else do
    let m ← buildDependsOnLoop config.request config.request []
    let _ ← detectCycles (fun n => m.lookup n) (keyOrder.length + 1) keyOrder
    .ok m

/-- State threaded through `CalculateExecutionOrder`'s depth-first `visit`
closure: the accumulated `result` list, the fully-processed set `visited`,
and the in-progress set `visiting`. -/
structure DState where
  result : List String
  visited : List String
  visiting : List String
deriving Repr, DecidableEq

/-- The `visit` closure of `CalculateExecutionOrder`: cycle check against
`visiting`, memo check against `visited`, recurse into the single parent,
then append the name. `none` is fuel exhaustion, a model artifact proven
unreachable whenever the Go recursion terminates. -/
def visit (dep : String → Option String) : Nat → String → DState → Option (Except Err DState)
  | 0, _, _ => none
  | fuel + 1, name, st =>
    if name ∈ st.visiting then
      some (.error (.wrapped ("cyclic dependency detected with request " ++ name)
                             .cyclicDependency))
    else if name ∈ st.visited then some (.ok st)
    else
      let stIn : DState := { st with visiting := name :: st.visiting }
      let afterDep : Option (Except Err DState) :=
        match dep name with
        | some d => visit dep fuel d stIn
        | none => some (.ok stIn)
      match afterDep with
      | none => none
      | some (.error e) => some (.error e)
      | some (.ok st2) =>
        some (.ok { result := st2.result ++ [name]
                    visited := name :: st2.visited
                    visiting := st2.visiting.erase name })

/-- The loop of `CalculateExecutionOrder` over all request names. -/
def calcLoop (dep : String → Option String) (fuel : Nat) :
    List String → DState → Option (Except Err DState)
  | [], st => some (.ok st)
  | n :: rest, st =>
    match visit dep fuel n st with
    | none => none
    | some (.error e) => some (.error e)
    | some (.ok st') => calcLoop dep fuel rest st'

/-- Model of `CalculateExecutionOrder`: DFS over every name in the map's iteration
order `keyOrder`, then reversal of the accumulated list
(`reverseStringSlice`). -/
def CalculateExecutionOrder (ctxDone : Bool) (dep : String → Option String)
    (keyOrder : List String) : Option (Except Err (List String)) :=
  if ctxDone then some (.error .ctxCancelled)
  else
    match calcLoop dep (keyOrder.length + 1) keyOrder ⟨[], [], []⟩ with
    | none => none
    | some (.error e) => some (.error e)
    | some (.ok st) => some (.ok st.result.reverse)

/-! ### Generic helpers -/

/-- Decidable equality on `Except`, so concrete runs can be settled by
`decide`. -/
instance {ε α : Type} [DecidableEq ε] [DecidableEq α] : DecidableEq (Except ε α) := fun x y =>
  match x, y with
  | .ok a, .ok b =>
    if h : a = b then isTrue (by rw [h]) else isFalse (fun he => by cases he; exact h rfl)
  | .error a, .error b =>
    if h : a = b then isTrue (by rw [h]) else isFalse (fun he => by cases he; exact h rfl)
  | .ok _, .error _ => isFalse (fun he => by cases he)
  | .error _, .ok _ => isFalse (fun he => by cases he)

/-- A list permuting a two-element list is one of its two arrangements. -/
theorem perm_pair_cases {α : Type} {l : List α} {a b : α} (h : l.Perm [a, b]) :
    l = [a, b] ∨ l = [b, a] := by
  have hlen := h.length_eq
  match l, hlen with
  | [x, y], _ =>
    have hx : x ∈ [a, b] := h.subset (List.mem_cons_self x [y])
    rw [List.mem_cons, List.mem_singleton] at hx
    rcases hx with rfl | rfl
    · left
      have h2 : [y].Perm [b] := (List.perm_cons x).mp h
      rw [List.perm_singleton.mp h2]
    · right
      have hswap : List.Perm [a, x] [x, a] := List.Perm.swap x a []
      have h2 : [y].Perm [a] := (List.perm_cons x).mp (h.trans hswap)
      rw [List.perm_singleton.mp h2]

/-- A list permuting a three-element list is one of its six arrangements. -/
theorem perm_triple_cases {α : Type} {l : List α} {a b c : α} (h : l.Perm [a, b, c]) :
    l = [a, b, c] ∨ l = [a, c, b] ∨ l = [b, a, c] ∨ l = [b, c, a] ∨
    l = [c, a, b] ∨ l = [c, b, a] := by
  have hlen := h.length_eq
  match l, hlen with
  | [x, y, z], _ =>
    have hx : x ∈ [a, b, c] := h.subset (List.mem_cons_self x [y, z])
    rw [List.mem_cons, List.mem_cons, List.mem_singleton] at hx
    rcases hx with rfl | rfl | rfl
    · have h2 : [y, z].Perm [b, c] := (List.perm_cons x).mp h
      rcases perm_pair_cases h2 with h3 | h3 <;> rw [h3] <;> simp
    · have hswap : List.Perm [a, x, c] [x, a, c] := List.Perm.swap x a [c]
      have h2 : [y, z].Perm [a, c] := (List.perm_cons x).mp (h.trans hswap)
      rcases perm_pair_cases h2 with h3 | h3 <;> rw [h3] <;> simp
    · have hs1 : List.Perm [a, b, x] [a, x, b] := List.Perm.cons a (List.Perm.swap x b [])
      have hs2 : List.Perm [a, x, b] [x, a, b] := List.Perm.swap x a [b]
      have h2 : [y, z].Perm [a, b] := (List.perm_cons x).mp (h.trans (hs1.trans hs2))
      rcases perm_pair_cases h2 with h3 | h3 <;> rw [h3] <;> simp

/-! ### C1: the three-request chain -/

/-- The C1 configuration: `root`, `A1` depends on `root`, `A2` depends on
`A1`. -/
def cfgChain3 : Config :=
  { baseUrl := "http://example.com"
    request := [{ name := "root", method := "GET", path := "/r" },
                { name := "A1", method := "GET", path := "/1", dependsOn := "root" },
                { name := "A2", method := "GET", path := "/2", dependsOn := "A1" }] }

/-- C1: for the chain `root ← A1 ← A2`, whatever order the request map is
iterated in, graph building succeeds and `CalculateExecutionOrder` returns
exactly `[A2, A1, root]` — parent-first accumulation followed by reversal
puts children before parents. -/
theorem C1_execution_order_chain3 (order : List String)
    (h : order.Perm ["root", "A1", "A2"]) :
    BuildRequestGraph false order cfgChain3 = .ok [("A2", "A1"), ("A1", "root")] ∧
    CalculateExecutionOrder false
      (fun n => ([("A2", "A1"), ("A1", "root")] : List (String × String)).lookup n)
      order = some (.ok ["A2", "A1", "root"]) := by
  rcases perm_triple_cases h with rfl | rfl | rfl | rfl | rfl | rfl <;>
    exact ⟨by decide, by decide⟩

/-- Witness for C1 at the config-listed iteration order. -/
theorem C1_execution_order_chain3_witness :
    (["root", "A1", "A2"] : List String).Perm ["root", "A1", "A2"] ∧
    CalculateExecutionOrder false
      (fun n => ([("A2", "A1"), ("A1", "root")] : List (String × String)).lookup n)
      ["root", "A1", "A2"] = some (.ok ["A2", "A1", "root"]) :=
  ⟨List.Perm.refl _, (C1_execution_order_chain3 ["root", "A1", "A2"] (List.Perm.refl _)).2⟩

/-! ## Chain executor (`internal/chain/executor.go`)

`ProcessRequest` (variable substitution + factory + transport + extraction,
`internal/chain/request.go`) is driven through external collaborators, so a
single run's per-request outcomes are supplied as an oracle
`proc : String → Except Err ExecResult` (the request map lookup and the
processor call merged: the names come from the same map). The model records
the observable trace: which names were processed (ProcessRequest calls),
which were reported to the collector, which were marked executed, and the
returned error. -/

/-- Model of `chain.ExecutionResult`; `vars` models the Go `Variables` map
(`variables` is a reserved word in Lean). -/
structure ExecResult where
  statusCode : Nat := 0
  vars : List (String × String) := []
deriving Repr, DecidableEq

/-- Observable trace of a chain run. -/
structure ChainRun where
  processed : List String := []
  collected : List String := []
  executed : List String := []
  result : Except Err Unit := .ok ()
deriving Repr, DecidableEq

/-- Model of `processRequestByName`: skip if already executed; process; report to the
collector when one is set (success or failure alike); on failure continue
when `ignoreFail` else abort with the name-wrapped error; on success mark
executed. -/
def processRequestByName (hasCollector : Bool) (ignoreFail : Bool)
    (proc : String → Except Err ExecResult) (name : String) (st : ChainRun) : ChainRun :=
  if name ∈ st.executed then st
  else
    let st1 : ChainRun :=
      { st with processed := st.processed ++ [name]
                collected := if hasCollector then st.collected ++ [name] else st.collected }
    match proc name with
    | .error e =>
      if ignoreFail then st1
      else { st1 with result := .error (.wrapped ("failed to process request " ++ name) e) }
    | .ok _ => { st1 with executed := st1.executed ++ [name] }

/-- Model of `executeRequestsInOrder`: iterate the execution order, checking the
context before each request (`ctxDoneAt i` is the observation at step `i`)
and aborting as soon as `processRequestByName` returns an error. -/
def executeRequestsInOrderLoop (hasCollector : Bool) (ignoreFail : Bool)
    (proc : String → Except Err ExecResult) (ctxDoneAt : Nat → Bool) :
    List String → Nat → ChainRun → ChainRun
  | [], _, st => st
  | name :: rest, i, st =>
    if ctxDoneAt i then { st with result := .error .ctxCancelled }
    else
      let st' := processRequestByName hasCollector ignoreFail proc name st
      match st'.result with
      | .error _ => st'
      | .ok _ => executeRequestsInOrderLoop hasCollector ignoreFail proc ctxDoneAt rest (i + 1) st'

/-- Model of `ChainExecutor.Execute`: build the graph, compute the order, run the
requests in order. Structural errors are wrapped and returned before any
request is processed. `none` is the fuel artifact of
`CalculateExecutionOrder`, never hit on terminating Go runs. -/
def ChainExecute (hasCollector : Bool) (proc : String → Except Err ExecResult)
    (ctxDoneGraph ctxDoneCalc : Bool) (graphKeyOrder calcKeyOrder : List String)
    (ctxDoneAt : Nat → Bool) (config : Config) : Option ChainRun :=
  match BuildRequestGraph ctxDoneGraph graphKeyOrder config with
  | .error e =>
    some { result := .error (.wrapped "failed to build request dependency graph" e) }
  | .ok m =>
    match CalculateExecutionOrder ctxDoneCalc (fun n => m.lookup n) calcKeyOrder with
    | none => none
    | some (.error e) =>
      some { result := .error (.wrapped "failed to calculate execution order" e) }
    | some (.ok order) =>
      some (executeRequestsInOrderLoop hasCollector config.ignoreFail proc ctxDoneAt
              order 0 {})

/-! ## Batch executor (`internal/engine/runner.go`) -/

/-- Observable trace of a batch run: request indices whose transport call
(`executeConfigRequest`) occurred, indices reported to the collector, and
the returned error. -/
structure BatchRun where
  executed : List Nat := []
  collected : List Nat := []
  result : Except Err Unit := .ok ()
deriving Repr, DecidableEq

/-- The loop of `ExecuteBatchSequential`, with `exec i` the transport outcome
of the request at index `i` (status code on success) and `ctxDoneAt i` the
context observation before step `i`. Mirrors the Go branch structure
exactly: when a result collector is set, the collector branch runs and the
loop continues — the `else if err != nil` abort branch is reachable only
with no collector. -/
def seqBatchLoop (hasCollector : Bool) (ignoreFail : Bool)
    (exec : Nat → Except Err Nat) (ctxDoneAt : Nat → Bool) :
    List Request → Nat → BatchRun → BatchRun
  | [], _, st => st
  | _req :: rest, i, st =>
    if ctxDoneAt i then
      if ignoreFail then seqBatchLoop hasCollector ignoreFail exec ctxDoneAt rest (i + 1) st
      else { st with result := .error .ctxCancelled }
    else
      let st1 : BatchRun := { st with executed := st.executed ++ [i] }
      if hasCollector then
        seqBatchLoop hasCollector ignoreFail exec ctxDoneAt rest (i + 1)
          { st1 with collected := st1.collected ++ [i] }
      else
        match exec i with
        | .error e =>
          if ignoreFail then seqBatchLoop hasCollector ignoreFail exec ctxDoneAt rest (i + 1) st1
          else { st1 with result := .error (.wrapped "batch request failed" e) }
        | .ok _ => seqBatchLoop hasCollector ignoreFail exec ctxDoneAt rest (i + 1) st1

/-- Model of `ExecuteBatchSequential` over a config. -/
def ExecuteBatchSequential (hasCollector : Bool) (exec : Nat → Except Err Nat)
    (ctxDoneAt : Nat → Bool) (config : Config) : BatchRun :=
  seqBatchLoop hasCollector config.ignoreFail exec ctxDoneAt config.request 0 {}

/-- The first error a worker manages to place in the single-slot error
channel: workers attempt the non-blocking send only when `!ignoreFail`
(`worker` in `runner.go`), each wrapping its failure first; `sched` lists
the worker outcomes in completion order, so the head failure wins and the
rest are dropped. -/
def firstWorkerError (ignoreFail : Bool) (sched : List (Except Err Nat)) : Option Err :=
  if ignoreFail then none
  else
    (sched.filterMap (fun o =>
      match o with
      | .error e => some (Err.wrapped "batch request failed" e)
      | .ok _ => none)).head?

/-- Model of `ExecuteBatchConcurrent` after all workers have finished: the final
`select` returns the context error if the governing context is done, else
the captured error when `!ignoreFail`, else success. When both the done
channel and the error channel are ready Go picks a branch at random;
`pickCtx` models that choice. Worker-pool mechanics (queue, pool size)
are abstracted into the completion schedule `sched`, which the claims
quantify over. -/
def ExecuteBatchConcurrent (ignoreFail : Bool) (ctxDoneAtEnd : Bool) (pickCtx : Bool)
    (sched : List (Except Err Nat)) : Except Err Unit :=
  match ctxDoneAtEnd, firstWorkerError ignoreFail sched with
  | true, some e => if pickCtx then .error .ctxCancelled else if ignoreFail then .ok () else .error e
  | true, none => .error .ctxCancelled
  | false, some e => if ignoreFail then .ok () else .error e
  | false, none => .ok ()

/-! ### C2: sequential batch abort on failure -/

/-- Abort behavior of the no-collector sequential loop: with `ignoreFail`
off and a live context, the loop runs requests `i, i+1, …` until the first
failing index and stops there with the wrapped error. -/
theorem seqBatchLoop_abort {e : Err} (exec : Nat → Except Err Nat) (ctxDoneAt : Nat → Bool)
    (hctx : ∀ k, ctxDoneAt k = false) :
    ∀ (j : Nat) (l : List Request) (i : Nat) (st : BatchRun),
      j < l.length →
      exec (i + j) = .error e →
      (∀ k < j, ∃ s, exec (i + k) = .ok s) →
      seqBatchLoop false false exec ctxDoneAt l i st =
        { st with executed := st.executed ++ List.range' i (j + 1)
                  result := .error (.wrapped "batch request failed" e) } := by
  intro j
  induction j with
  | zero =>
    intro l i st hlen hfail _
    match l, hlen with
    | r :: rest, _ =>
      rw [Nat.add_zero] at hfail
      simp only [seqBatchLoop, hctx i, if_false, Bool.false_eq_true, hfail]
      rfl
  | succ j ih =>
    intro l i st hlen hfail hok
    match l, hlen with
    | r :: rest, hlen2 =>
      obtain ⟨s, hs⟩ := hok 0 (Nat.succ_pos j)
      rw [Nat.add_zero] at hs
      simp only [seqBatchLoop, hctx i, if_false, Bool.false_eq_true, hs]
      rw [ih rest (i + 1) _ (Nat.lt_of_succ_lt_succ hlen2)
            (by rw [show i + 1 + j = i + (j + 1) by omega]; exact hfail)
            (fun k hk => by
              rw [show i + 1 + k = i + (k + 1) by omega]
              exact hok (k + 1) (Nat.succ_lt_succ hk))]
      simp [List.range', List.append_assoc]

/-- The C2/C3 batch configuration: three requests, failure policy strict. -/
def cfgBatch3 : Config :=
  { baseUrl := "http://example.com", ignoreFail := false
    request := [{ name := "r1", method := "GET", path := "/1" },
                { name := "r2", method := "GET", path := "/2" },
                { name := "r3", method := "GET", path := "/3" }] }

/-- Transport oracle for the counterexamples: the second request fails, the
others succeed. -/
def execFail2 : Nat → Except Err Nat :=
  fun i => if i = 1 then .error (.transport "connection refused") else .ok 200

/-- C2 counterexample: with a result collector set, `ignoreFail = false` and
the second of three requests failing, the third request's transport call
DOES occur and the run returns no error — refuting the claim's "whether or
not a result collector is set". -/
theorem C2_counterexample_collector_swallows_failure :
    (ExecuteBatchSequential true execFail2 (fun _ => false) cfgBatch3).executed = [0, 1, 2] ∧
    (ExecuteBatchSequential true execFail2 (fun _ => false) cfgBatch3).result = .ok () := by
  decide

/-- C2 (amended: restricted to runs with no result collector): in sequential
batch execution with `ignoreFail = false`, a live context and no collector,
if request `j` fails and all before it succeed, then exactly requests
`0..j` see a transport call — no later request executes — and the run
returns the failure wrapped as a batch error. -/
theorem C2_sequential_abort_no_collector (cfg : Config) (exec : Nat → Except Err Nat)
    (ctxDoneAt : Nat → Bool) (e : Err) (j : Nat)
    (hig : cfg.ignoreFail = false)
    (hctx : ∀ k, ctxDoneAt k = false)
    (hj : j < cfg.request.length)
    (hfail : exec j = .error e)
    (hok : ∀ k < j, ∃ s, exec k = .ok s) :
    ExecuteBatchSequential false exec ctxDoneAt cfg =
      { executed := List.range (j + 1), collected := []
        result := .error (.wrapped "batch request failed" e) } := by
  unfold ExecuteBatchSequential
  rw [hig, seqBatchLoop_abort exec ctxDoneAt hctx j cfg.request 0 {} hj
        (by simpa using hfail) (by simpa using hok)]
  simp [List.range_eq_range']

/-- Witness for C2 at the concrete three-request run without a collector:
the second request fails, the third is never executed. -/
theorem C2_sequential_abort_no_collector_witness :
    ExecuteBatchSequential false execFail2 (fun _ => false) cfgBatch3 =
      { executed := [0, 1], collected := []
        result := .error (.wrapped "batch request failed" (.transport "connection refused")) } := by
  have h := C2_sequential_abort_no_collector cfgBatch3 execFail2 (fun _ => false)
    (.transport "connection refused") 1 rfl (fun _ => rfl) (by decide) (by decide)
    (by intro k hk
        have hk0 : k = 0 := by omega
        exact hk0 ▸ ⟨200, rfl⟩)
  rw [h]
  rfl

/-! ### C3: result-collector independence -/

/-- The collector-independent observables of a chain run. -/
def ChainRun.obs (r : ChainRun) : List String × List String × Except Err Unit :=
  (r.processed, r.executed, r.result)

/-- The collector-independent observables of a batch run. -/
def BatchRun.obs (r : BatchRun) : List Nat × Except Err Unit :=
  (r.executed, r.result)

/-- Lemma: `processRequestByName` reads the collector flag only to append to the
collected trace: the processed/executed/result observables agree across the
flag. -/
theorem processRequestByName_obs (hc hc' ig : Bool) (proc : String → Except Err ExecResult)
    (n : String) (st st' : ChainRun) (h : st.obs = st'.obs) :
    (processRequestByName hc ig proc n st).obs =
      (processRequestByName hc' ig proc n st').obs := by
  cases st with
  | mk p c x r =>
    cases st' with
    | mk p' c' x' r' =>
      simp only [ChainRun.obs, Prod.mk.injEq] at h
      obtain ⟨hp, hx, hr⟩ := h
      subst hp; subst hx; subst hr
      unfold processRequestByName
      by_cases hmem : n ∈ x <;> simp only [hmem, if_true, if_false] <;>
        cases hpr : proc n <;> cases ig <;> simp [ChainRun.obs, hpr, hmem]

/-- Unfolding equation for one step of the chain executor loop. -/
theorem executeRequestsInOrderLoop_cons (hc ig : Bool) (proc : String → Except Err ExecResult)
    (ctx : Nat → Bool) (n : String) (rest : List String) (i : Nat) (st : ChainRun) :
    executeRequestsInOrderLoop hc ig proc ctx (n :: rest) i st =
      if ctx i then { st with result := .error .ctxCancelled }
      else
        match (processRequestByName hc ig proc n st).result with
        | .error _ => processRequestByName hc ig proc n st
        | .ok _ => executeRequestsInOrderLoop hc ig proc ctx rest (i + 1)
            (processRequestByName hc ig proc n st) := rfl

/-- The chain executor loop is collector-independent on observables. -/
theorem executeRequestsInOrderLoop_obs (hc hc' ig : Bool)
    (proc : String → Except Err ExecResult) (ctxDoneAt : Nat → Bool) :
    ∀ (order : List String) (i : Nat) (st st' : ChainRun), st.obs = st'.obs →
      (executeRequestsInOrderLoop hc ig proc ctxDoneAt order i st).obs =
        (executeRequestsInOrderLoop hc' ig proc ctxDoneAt order i st').obs := by
  intro order
  induction order with
  | nil => intro i st st' h; exact h
  | cons n rest ih =>
    intro i st st' h
    have hp : st.processed = st'.processed := congrArg (fun t => t.1) h
    have hx : st.executed = st'.executed := congrArg (fun t => t.2.1) h
    rw [executeRequestsInOrderLoop_cons, executeRequestsInOrderLoop_cons]
    cases hctx : ctxDoneAt i with
    | true => simp [ChainRun.obs, hp, hx]
    | false =>
      simp only [Bool.false_eq_true, if_false]
      have hstep := processRequestByName_obs hc hc' ig proc n st st' h
      have hres : (processRequestByName hc ig proc n st).result =
          (processRequestByName hc' ig proc n st').result :=
        congrArg (fun t => t.2.2) hstep
      rw [hres]
      cases hr2 : (processRequestByName hc' ig proc n st').result with
      | error e => exact hstep
      | ok u => exact ih (i + 1) _ _ hstep

/-- Unfolding equation for one step of the sequential batch loop. -/
theorem seqBatchLoop_cons (hc ig : Bool) (exec : Nat → Except Err Nat) (ctx : Nat → Bool)
    (r : Request) (rest : List Request) (i : Nat) (st : BatchRun) :
    seqBatchLoop hc ig exec ctx (r :: rest) i st =
      if ctx i then
        if ig then seqBatchLoop hc ig exec ctx rest (i + 1) st
        else { st with result := .error .ctxCancelled }
      else if hc then
        seqBatchLoop hc ig exec ctx rest (i + 1)
          { st with executed := st.executed ++ [i], collected := st.collected ++ [i] }
      else
        match exec i with
        | .error e =>
          if ig then seqBatchLoop hc ig exec ctx rest (i + 1)
              { st with executed := st.executed ++ [i] }
          else { st with executed := st.executed ++ [i]
                         result := .error (.wrapped "batch request failed" e) }
        | .ok _ => seqBatchLoop hc ig exec ctx rest (i + 1)
            { st with executed := st.executed ++ [i] } := rfl

/-- The sequential batch loop is collector-independent on observables
provided `ignoreFail` is on or every non-cancelled step's transport call
succeeds. -/
theorem seqBatchLoop_obs_eq (exec : Nat → Except Err Nat) (ctxAt : Nat → Bool) (ig : Bool)
    (hcond : ig = true ∨ ∀ k, ctxAt k = false → ∃ s, exec k = .ok s) :
    ∀ (l : List Request) (i : Nat) (st st' : BatchRun), st.obs = st'.obs →
      (seqBatchLoop true ig exec ctxAt l i st).obs =
        (seqBatchLoop false ig exec ctxAt l i st').obs := by
  intro l
  induction l with
  | nil => intro i st st' h; exact h
  | cons r rest ih =>
    intro i st st' h
    have hx : st.executed = st'.executed := congrArg (fun t => t.1) h
    rw [seqBatchLoop_cons, seqBatchLoop_cons]
    have hr : st.result = st'.result := congrArg (fun t => t.2) h
    cases hctx : ctxAt i with
    | true =>
      cases ig with
      | true => simp only [if_true]; exact ih (i + 1) st st' h
      | false => simp [BatchRun.obs, hx]
    | false =>
      simp only [Bool.false_eq_true, if_false, if_true]
      cases hex : exec i with
      | ok s => exact ih (i + 1) _ _ (by simp [BatchRun.obs, hx, hr])
      | error e =>
        cases ig with
        | true => simp only [if_true]; exact ih (i + 1) _ _ (by simp [BatchRun.obs, hx, hr])
        | false =>
          rcases hcond with hcontra | hok
          · cases hcontra
          · obtain ⟨s, hs⟩ := hok i hctx
            rw [hs] at hex
            cases hex

/-- C3 (amended): the chain executor's observable behavior — which requests
are processed, which are marked executed, the returned error — is identical
with and without a result collector; the sequential batch executor is
collector-independent when `ignoreFail` is on, and also whenever no
non-cancelled step fails. (The unrestricted claim is refuted by the
counterexample: with `ignoreFail = false` and a failing request the
collector's presence suppresses the abort.) -/
theorem C3_collector_independence :
    (∀ (proc : String → Except Err ExecResult) (ctxG ctxC : Bool)
       (gko cko : List String) (ctxAt : Nat → Bool) (cfg : Config),
       Option.map ChainRun.obs (ChainExecute true proc ctxG ctxC gko cko ctxAt cfg) =
         Option.map ChainRun.obs (ChainExecute false proc ctxG ctxC gko cko ctxAt cfg)) ∧
    (∀ (exec : Nat → Except Err Nat) (ctxAt : Nat → Bool) (cfg : Config),
       cfg.ignoreFail = true →
       (ExecuteBatchSequential true exec ctxAt cfg).obs =
         (ExecuteBatchSequential false exec ctxAt cfg).obs) ∧
    (∀ (exec : Nat → Except Err Nat) (ctxAt : Nat → Bool) (cfg : Config),
       (∀ k, ctxAt k = false → ∃ s, exec k = .ok s) →
       (ExecuteBatchSequential true exec ctxAt cfg).obs =
         (ExecuteBatchSequential false exec ctxAt cfg).obs) := by
  refine ⟨?_, ?_, ?_⟩
  · intro proc ctxG ctxC gko cko ctxAt cfg
    unfold ChainExecute
    cases hb : BuildRequestGraph ctxG gko cfg with
    | error e => rfl
    | ok m =>
      dsimp only
      cases hc2 : CalculateExecutionOrder ctxC (fun n => m.lookup n) cko with
      | none => rfl
      | some r =>
        cases r with
        | error e => rfl
        | ok order =>
          dsimp only [Option.map]
          exact congrArg some
            (executeRequestsInOrderLoop_obs true false cfg.ignoreFail proc ctxAt
              order 0 {} {} rfl)
  · intro exec ctxAt cfg hig
    unfold ExecuteBatchSequential
    rw [hig]
    exact seqBatchLoop_obs_eq exec ctxAt true (Or.inl rfl) cfg.request 0 {} {} rfl
  · intro exec ctxAt cfg hok
    unfold ExecuteBatchSequential
    exact seqBatchLoop_obs_eq exec ctxAt cfg.ignoreFail (Or.inr hok) cfg.request 0 {} {} rfl

/-- C3 counterexample: on the concrete three-request sequential batch with
strict failure policy and a failing second request, the run with a
collector and the run without one differ in both the set of executed
requests and the returned error. -/
theorem C3_counterexample_batch_collector_dependent :
    (ExecuteBatchSequential true execFail2 (fun _ => false) cfgBatch3).obs =
      ([0, 1, 2], .ok ()) ∧
    (ExecuteBatchSequential false execFail2 (fun _ => false) cfgBatch3).obs =
      ([0, 1], .error (.wrapped "batch request failed" (.transport "connection refused"))) := by
  decide

/-- The C2/C3 batch config with `ignoreFail` on. -/
def cfgBatch3Ignore : Config := { cfgBatch3 with ignoreFail := true }

/-- Witness for C3 at concrete inputs: chain part at the C1 config, batch
parts at an ignore-fail run with a failure and at an all-success run. -/
theorem C3_collector_independence_witness :
    Option.map ChainRun.obs
      (ChainExecute true (fun _ => .ok {}) false false ["root", "A1", "A2"]
        ["root", "A1", "A2"] (fun _ => false) cfgChain3) =
    Option.map ChainRun.obs
      (ChainExecute false (fun _ => .ok {}) false false ["root", "A1", "A2"]
        ["root", "A1", "A2"] (fun _ => false) cfgChain3) ∧
    (ExecuteBatchSequential true execFail2 (fun _ => false) cfgBatch3Ignore).obs =
      (ExecuteBatchSequential false execFail2 (fun _ => false) cfgBatch3Ignore).obs ∧
    (ExecuteBatchSequential true (fun _ => .ok 200) (fun _ => false) cfgBatch3).obs =
      (ExecuteBatchSequential false (fun _ => .ok 200) (fun _ => false) cfgBatch3).obs :=
  ⟨C3_collector_independence.1 (fun _ => .ok {}) false false ["root", "A1", "A2"]
      ["root", "A1", "A2"] (fun _ => false) cfgChain3,
   C3_collector_independence.2.1 execFail2 (fun _ => false) cfgBatch3Ignore rfl,
   C3_collector_independence.2.2 (fun _ => .ok 200) (fun _ => false) cfgBatch3
      (fun _ _ => ⟨200, rfl⟩)⟩

/-! ### C6: structural failures abort before any request executes -/

/-- A view of an error result up to `errors.Is`: the innermost sentinel. -/
def errKind {α : Type} : Except Err α → Option Err
  | .error e => some e.base
  | .ok _ => none

/-- The same view through `CalculateExecutionOrder`'s fuel wrapper. -/
def optErrKind : Option (Except Err (List String)) → Option Err
  | some (.error e) => some e.base
  | _ => none

/-- Config with a dangling dependency: `a` depends on the nonexistent
`nope`. -/
def cfgUnknownDep : Config :=
  { baseUrl := "http://example.com"
    request := [{ name := "a", method := "GET", path := "/a", dependsOn := "nope" },
                { name := "b", method := "GET", path := "/b" }] }

/-- Config with the closed chain `A → B → C → A`. -/
def cfgCycle : Config :=
  { baseUrl := "http://example.com"
    request := [{ name := "A", method := "GET", path := "/a", dependsOn := "B" },
                { name := "B", method := "GET", path := "/b", dependsOn := "C" },
                { name := "C", method := "GET", path := "/c", dependsOn := "A" }] }

/-- The `dependsOn` map `buildDependencyMaps` builds for `cfgCycle`. -/
def depCycle : List (String × String) := [("C", "A"), ("B", "C"), ("A", "B")]

/-- C6: structural failures abort before any request executes. A dangling
`dependsOn` fails graph building with `UnknownDependency` and makes the
chain `Execute` return that error with nothing processed; the closed chain
`A → B → C → A` fails both graph building and execution-order computation
with `CyclicDependency` — under every map iteration order — and again the
chain `Execute` returns the error with nothing processed. -/
theorem C6_structural_failures_abort :
    (∀ ko : List String, BuildRequestGraph false ko cfgUnknownDep =
        .error (.wrapped "request a depends on unknown request" .unknownDependency)) ∧
    (∀ (ko co : List String) (ctxAt : Nat → Bool) (proc : String → Except Err ExecResult),
        ChainExecute false proc false false ko co ctxAt cfgUnknownDep =
          some { result := .error (.wrapped "failed to build request dependency graph"
                  (.wrapped "request a depends on unknown request" .unknownDependency)) }) ∧
    (∀ ko : List String, ko.Perm ["A", "B", "C"] →
        errKind (BuildRequestGraph false ko cfgCycle) = some .cyclicDependency) ∧
    (∀ co : List String, co.Perm ["A", "B", "C"] →
        optErrKind (CalculateExecutionOrder false (fun n => depCycle.lookup n) co) =
          some .cyclicDependency) ∧
    (∀ (ko co : List String) (ctxAt : Nat → Bool) (proc : String → Except Err ExecResult),
        ko.Perm ["A", "B", "C"] →
        ∃ run, ChainExecute false proc false false ko co ctxAt cfgCycle = some run ∧
          run.processed = [] ∧ errKind run.result = some .cyclicDependency) := by
  refine ⟨fun ko => rfl, fun ko co ctxAt proc => rfl, ?_, ?_, ?_⟩
  · intro ko h
    rcases perm_triple_cases h with rfl | rfl | rfl | rfl | rfl | rfl <;> decide
  · intro co h
    rcases perm_triple_cases h with rfl | rfl | rfl | rfl | rfl | rfl <;> decide
  · intro ko co ctxAt proc h
    rcases perm_triple_cases h with rfl | rfl | rfl | rfl | rfl | rfl <;>
      exact ⟨_, rfl, rfl, by decide⟩

/-- Witness for C6 at the config-listed iteration orders. -/
theorem C6_structural_failures_abort_witness :
    BuildRequestGraph false ["a", "b"] cfgUnknownDep =
      .error (.wrapped "request a depends on unknown request" .unknownDependency) ∧
    errKind (BuildRequestGraph false ["A", "B", "C"] cfgCycle) = some .cyclicDependency ∧
    optErrKind (CalculateExecutionOrder false (fun n => depCycle.lookup n) ["A", "B", "C"]) =
      some .cyclicDependency ∧
    (∃ run, ChainExecute false (fun _ => .ok {}) false false ["A", "B", "C"] ["A", "B", "C"]
        (fun _ => false) cfgCycle = some run ∧
      run.processed = [] ∧ errKind run.result = some .cyclicDependency) :=
  ⟨C6_structural_failures_abort.1 ["a", "b"],
   C6_structural_failures_abort.2.2.1 ["A", "B", "C"] (List.Perm.refl _),
   C6_structural_failures_abort.2.2.2.1 ["A", "B", "C"] (List.Perm.refl _),
   C6_structural_failures_abort.2.2.2.2 ["A", "B", "C"] ["A", "B", "C"] (fun _ => false)
     (fun _ => .ok {}) (List.Perm.refl _)⟩

/-! ### C8: concurrent batch with ignoreFail -/

/-- C8: with `ignoreFail = true` and the governing context not cancelled,
`ExecuteBatchConcurrent` returns no error whatever the workers' outcomes
(in particular when every request fails), under every completion schedule
and every select tie-break; and (second clause) with a live context an
error is only ever returned when `ignoreFail = false`. -/
theorem C8_concurrent_ignoreFail_no_error :
    (∀ (sched : List (Except Err Nat)) (pickCtx : Bool),
        ExecuteBatchConcurrent true false pickCtx sched = .ok ()) ∧
    (∀ (ig : Bool) (sched : List (Except Err Nat)) (pickCtx : Bool) (e : Err),
        ExecuteBatchConcurrent ig false pickCtx sched = .error e → ig = false) := by
  constructor
  · intro sched pickCtx
    simp [ExecuteBatchConcurrent, firstWorkerError]
  · intro ig sched pickCtx e h
    cases ig with
    | false => rfl
    | true => simp [ExecuteBatchConcurrent, firstWorkerError] at h

/-- Witness for C8: a two-request schedule in which every request fails,
yet the concurrent run reports success; and a strict run returning an
error indeed has `ignoreFail = false`. -/
theorem C8_concurrent_ignoreFail_no_error_witness :
    ExecuteBatchConcurrent true false true
      [.error (.transport "boom1"), .error (.transport "boom2")] = .ok () ∧
    (false : Bool) = false :=
  ⟨C8_concurrent_ignoreFail_no_error.1
      [.error (.transport "boom1"), .error (.transport "boom2")] true,
   C8_concurrent_ignoreFail_no_error.2 false [.error (.transport "boom1")] true
      (.wrapped "batch request failed" (.transport "boom1")) (by decide)⟩

/-! ## Variable extractor (`ExtractVariables`, chain package)

The JSON path lookup (gjson, an external library) is a parameter
`ext : String → String → Option String` merging the Go pair
`(value, exists)`. The response body is already a string in the model; the
capped reader of `readResponseBody` (10 MB limit plus one-byte residual
probe) becomes a length check, and the nil-body / body-reset plumbing of
the Go `io.ReadCloser` has no counterpart on pure strings. -/

/-- Constant `maxResponseBodySize` from `constants.go`: 10 MB. -/
def maxResponseBodySize : Nat := 10 * 1024 * 1024

/-- The part of `http.Response` the extractor reads. -/
structure HttpResponse where
  statusCode : Nat := 200
  body : String := ""
deriving Repr, DecidableEq

/-- Model of `readResponseBody`: a body with residual data beyond the 10 MB cap
fails with `ResponseTooLarge`; otherwise the full body is returned. -/
def readResponseBody (resp : HttpResponse) : Except Err String :=
  if resp.body.length > maxResponseBodySize then .error .responseTooLarge
  else .ok resp.body

/-- The extraction loop of `ExtractVariables`: context check before each
pair, then the path lookup; a missing path aborts the whole call with the
wrapped `PathNotFound`, else the value is committed to the map
(prepend-insert). -/
def extractLoop (ext : String → String → Option String) (jsonString : String)
    (ctxAt : Nat → Bool) :
    List (String × String) → Nat → List (String × String) →
    Except Err (List (String × String))
  | [], _, vars => .ok vars
  | (vn, path) :: rest, i, vars =>
    if ctxAt i then .error .ctxCancelled
    else
      match ext jsonString path with
      | none => .error (.wrapped ("path " ++ path ++ " not found for variable " ++ vn)
                                 .pathNotFound)
      | some v => extractLoop ext jsonString ctxAt rest (i + 1) ((vn, v) :: vars)

/-- Model of `ExtractVariables`: initial context check, nil-response check, capped
body read, then all-or-nothing extraction. `extractions` is the Go map in
its (arbitrary) iteration order. -/
def ExtractVariables (ext : String → String → Option String) (ctxDone0 : Bool)
    (ctxAt : Nat → Bool) (resp : Option HttpResponse)
    (extractions : List (String × String)) : Except Err (List (String × String)) :=
  if ctxDone0 then .error .ctxCancelled
  else
    match resp with
    | none => .error .nilResponse
    | some r =>
      match readResponseBody r with
      | .error e => .error (.wrapped "failed to read response body" e)
      | .ok body => extractLoop ext body ctxAt extractions 0 []

/-- Success behavior of the extraction loop: when every path resolves and
the context stays live, the loop commits every pair on top of the
accumulator. -/
theorem extractLoop_ok (ext : String → String → Option String) (body : String)
    (ctxAt : Nat → Bool) (hctx : ∀ k, ctxAt k = false) :
    ∀ (pairs : List (String × String)) (i : Nat) (vars : List (String × String)),
      (∀ q ∈ pairs, (ext body q.2).isSome) →
      extractLoop ext body ctxAt pairs i vars =
        .ok ((pairs.map (fun q => (q.1, (ext body q.2).getD ""))).reverse ++ vars) := by
  intro pairs
  induction pairs with
  | nil => intro i vars _; simp [extractLoop]
  | cons q rest ih =>
    intro i vars hall
    obtain ⟨vn, path⟩ := q
    have hq := hall (vn, path) (List.mem_cons_self _ _)
    cases hv : ext body path with
    | none => rw [hv] at hq; cases hq
    | some v =>
      simp only [extractLoop, hctx i, Bool.false_eq_true, if_false, hv]
      rw [ih (i + 1) ((vn, v) :: vars) (fun q hq2 => hall q (List.mem_cons_of_mem _ hq2))]
      simp [hv]

/-- Failure behavior of the extraction loop: if some pair's path is missing
and the context stays live, the loop fails with `PathNotFound`. -/
theorem extractLoop_missing (ext : String → String → Option String) (body : String)
    (ctxAt : Nat → Bool) (hctx : ∀ k, ctxAt k = false) :
    ∀ (pairs : List (String × String)) (i : Nat) (vars : List (String × String)),
      (∃ q ∈ pairs, ext body q.2 = none) →
      errKind (extractLoop ext body ctxAt pairs i vars) = some .pathNotFound := by
  intro pairs
  induction pairs with
  | nil => intro i vars hmiss; obtain ⟨q, hq, _⟩ := hmiss; cases hq
  | cons q rest ih =>
    intro i vars hmiss
    obtain ⟨vn, path⟩ := q
    simp only [extractLoop, hctx i, Bool.false_eq_true, if_false]
    cases hv : ext body path with
    | none => simp [errKind, Err.base]
    | some v =>
      obtain ⟨q', hq', hmq'⟩ := hmiss
      rcases List.mem_cons.mp hq' with rfl | hrest
      · simp [hv] at hmq'
      · exact ih (i + 1) ((vn, v) :: vars) ⟨q', hrest, hmq'⟩

/-- C7 (amended: the response body must be within the 10 MB cap and the
context live — an oversized body fails with `ResponseTooLarge` before any
path is consulted, see the counterexample): extraction is all-or-nothing.
If any path in the extraction map is missing from the body, the whole call
fails with `PathNotFound` and no variables are returned; if every path
exists, the complete variable map is returned. -/
theorem C7_extract_variables_all_or_nothing :
    (∀ (ext : String → String → Option String) (ctxAt : Nat → Bool) (r : HttpResponse)
       (pairs : List (String × String)),
       r.body.length ≤ maxResponseBodySize →
       (∀ k, ctxAt k = false) →
       (∃ q ∈ pairs, ext r.body q.2 = none) →
       errKind (ExtractVariables ext false ctxAt (some r) pairs) = some .pathNotFound) ∧
    (∀ (ext : String → String → Option String) (ctxAt : Nat → Bool) (r : HttpResponse)
       (pairs : List (String × String)),
       r.body.length ≤ maxResponseBodySize →
       (∀ k, ctxAt k = false) →
       (∀ q ∈ pairs, (ext r.body q.2).isSome) →
       ExtractVariables ext false ctxAt (some r) pairs =
         .ok ((pairs.map (fun q => (q.1, (ext r.body q.2).getD ""))).reverse)) := by
  constructor
  · intro ext ctxAt r pairs hsize hctx hmiss
    unfold ExtractVariables readResponseBody
    simp only [Bool.false_eq_true, if_false,
      if_neg (by omega : ¬ r.body.length > maxResponseBodySize)]
    exact extractLoop_missing ext r.body ctxAt hctx pairs 0 [] hmiss
  · intro ext ctxAt r pairs hsize hctx hall
    unfold ExtractVariables readResponseBody
    simp only [Bool.false_eq_true, if_false,
      if_neg (by omega : ¬ r.body.length > maxResponseBodySize)]
    rw [extractLoop_ok ext r.body ctxAt hctx pairs 0 [] hall]
    simp

/-- A response body one byte over the 10 MB cap. -/
def bigBody : String := String.mk (List.replicate (maxResponseBodySize + 1) 'a')

/-- C7 counterexample: with an oversized response body, a missing path does
NOT produce `PathNotFound` — the call fails with `ResponseTooLarge` before
any extraction — refuting the claim's unrestricted "for every response
body". -/
theorem C7_counterexample_oversized_body :
    ExtractVariables (fun _ _ => none) false (fun _ => false)
        (some { statusCode := 200, body := bigBody }) [("x", "missing.path")] =
      .error (.wrapped "failed to read response body" .responseTooLarge) ∧
    errKind (ExtractVariables (fun _ _ => none) false (fun _ => false)
        (some { statusCode := 200, body := bigBody }) [("x", "missing.path")]) ≠
      some .pathNotFound := by
  have hlen : bigBody.length = maxResponseBodySize + 1 := by
    show (List.replicate (maxResponseBodySize + 1) 'a').length = maxResponseBodySize + 1
    exact List.length_replicate _ _
  have hgt : bigBody.length > maxResponseBodySize := by rw [hlen]; omega
  have hmain2 : ∀ b : String, b.length > maxResponseBodySize →
      ExtractVariables (fun _ _ => none) false (fun _ => false)
        (some { statusCode := 200, body := b }) [("x", "missing.path")] =
        .error (.wrapped "failed to read response body" .responseTooLarge) := by
    intro b hb
    unfold ExtractVariables readResponseBody
    simp only [Bool.false_eq_true, if_false]
    rw [if_pos hb]
  have hmain := hmain2 bigBody hgt
  refine ⟨hmain, ?_⟩
  rw [hmain]
  decide

/-- Concrete JSON path lookup for the C7 witness, matching the behavior of
gjson on `{"name":"test","age":30}`. -/
def extSample : String → String → Option String :=
  fun _ p => if p = "name" then some "test" else if p = "age" then some "30" else none

/-- The C7 witness response. -/
def respSample : HttpResponse :=
  { statusCode := 200, body := "\x7b\"name\":\"test\",\"age\":30\x7d" }

/-- Witness for C7: both halves at a small concrete response. -/
theorem C7_extract_variables_all_or_nothing_witness :
    ExtractVariables extSample false (fun _ => false) (some respSample)
        [("username", "name"), ("userAge", "age")] =
      .ok (([("username", "name"), ("userAge", "age")].map
        (fun q => (q.1, (extSample respSample.body q.2).getD ""))).reverse) ∧
    errKind (ExtractVariables extSample false (fun _ => false) (some respSample)
        [("x", "missing.path")]) = some .pathNotFound :=
  ⟨C7_extract_variables_all_or_nothing.2 extSample (fun _ => false) respSample
      [("username", "name"), ("userAge", "age")] (by decide) (fun _ => rfl) (by decide),
   C7_extract_variables_all_or_nothing.1 extSample (fun _ => false) respSample
      [("x", "missing.path")] (by decide) (fun _ => rfl)
      ⟨("x", "missing.path"), by decide, by decide⟩⟩

/-! ## Variable resolver (`internal/chain/request.go`, resolver half)

The Go resolver replaces every occurrence of the regex `\$\x7b[^\x7d]+\x7d`
(dollar, brace, one or more non-closing-brace characters, closing brace)
via `regexp.ReplaceAllStringFunc`: leftmost matches, replacements not
rescanned. The model scans the character list directly: at `'$','{'` it
takes the characters up to the first `'}'`; a nonempty span is a match
(handed to the callback as the full `${name}` text, exactly as Go passes
`match`), an empty span or a missing `'}'` is not, and scanning resumes
after the `'$'` — the same matches the regex produces.

Recursion bookkeeping: Go threads an increasing `depth`, failing a
`resolveRecursively` call as soon as `depth >= maxVariableRecursionDepth`.
The model threads the remaining budget `gas = maxVariableRecursionDepth -
depth` instead, so the recursion is structural and computable;
`resolveRecursively`'s body is inlined into `resolveVariable`'s recursive
case for the same reason. The scanner carries a fuel initialized to the
list length (each step consumes at least one character, so the fuel never
runs out). Go's `len` on strings counts bytes; the model counts
characters, which agrees on ASCII. -/

/-- Constant `maxVariableRecursionDepth` from `constants.go`. -/
def maxVariableRecursionDepth : Nat := 5

/-- Constant `maxVariableValueLength` from `constants.go`. -/
def maxVariableValueLength : Nat := 1000

/-- Constant `maxBodySizeMultiplier` from `constants.go`. -/
def maxBodySizeMultiplier : Nat := 10

/-- The variable store of `DefaultVariableResolver`: prepend-insert
association list, first-match lookup = Go map last-write-wins. -/
structure VarStore where
  values : List (String × String) := []
deriving Repr, DecidableEq

/-- Model of `Get` and the `r.values[varName]` lookup. -/
def VarStore.get (st : VarStore) (n : String) : Option String :=
  st.values.lookup n

/-- Model of `Set`: rejects the empty name, otherwise overwrites unconditionally. -/
def VarStore.set (st : VarStore) (n v : String) : Except Err VarStore :=
  if n = "" then .error .emptyVariableName else .ok ⟨(n, v) :: st.values⟩

/-- Scan to the first `'}'`: returns the characters before it and the
remainder after it, or `none` when no `'}'` exists. -/
def splitAtRBrace : List Char → Option (List Char × List Char)
  | [] => none
  | c :: rest =>
    if c = '}' then some ([], rest)
    else
      match splitAtRBrace rest with
      | some (nm, rest') => some (c :: nm, rest')
      | none => none

/-- One pass of `ReplaceAllStringFunc` with the `\$\x7b[^\x7d]+\x7d`
pattern: each match `${name}` is replaced by `f "${name}"`, the replacement
is not rescanned. `fuel ≥ length` suffices (proved where needed); fuel
exhaustion returns the remaining input unchanged. -/
def replaceVarsF (f : String → String) : Nat → List Char → List Char
  | 0, cs => cs
  | fuel + 1, cs =>
    match cs with
    | [] => []
    | c1 :: rest1 =>
      match rest1 with
      | [] => [c1]
      | c2 :: rest2 =>
        if c1 = '$' ∧ c2 = '{' then
          match splitAtRBrace rest2 with
          | some (nm, rest') =>
            if nm.isEmpty then c1 :: replaceVarsF f fuel rest1
            else (f (String.mk (c1 :: c2 :: (nm ++ ['}'])))).toList ++ replaceVarsF f fuel rest'
          | none => c1 :: replaceVarsF f fuel rest1
        else c1 :: replaceVarsF f fuel rest1

/-- Whether the scanner would find any `${...}` match: the same traversal
as `replaceVarsF`, answering only yes/no. -/
def hasVarRefF : Nat → List Char → Bool
  | 0, _ => false
  | fuel + 1, cs =>
    match cs with
    | [] => false
    | c1 :: rest1 =>
      match rest1 with
      | [] => false
      | c2 :: rest2 =>
        if c1 = '$' ∧ c2 = '{' then
          match splitAtRBrace rest2 with
          | some (nm, _) => if nm.isEmpty then hasVarRefF fuel rest1 else true
          | none => hasVarRefF fuel rest1
        else hasVarRefF fuel rest1

/-- A string contains a `${...}` variable reference. -/
def hasVarRef (s : String) : Bool := hasVarRefF s.toList.length s.toList

/-- Model of `extractVariableName`: strips the reference delimiters from a match. -/
def extractVariableName (m : String) : String :=
  if m.length < 4 then "" else String.mk ((m.toList.drop 2).dropLast)

/-- Model of `truncateValue`. -/
def truncateValue (value : String) (maxLength : Nat) : String :=
  if value.length ≤ maxLength then value else String.mk (value.toList.take maxLength)

/-- Model of `truncateIfNeeded`: cap a variable value at `maxVariableValueLength`. -/
def truncateIfNeeded (value : String) : String :=
  if value.length > maxVariableValueLength then truncateValue value maxVariableValueLength
  else value

/-- Model of `resolveVariable`, with `resolveRecursively`'s body inlined at the
recursive call (`gas = 0` is Go's `depth >= maxVariableRecursionDepth`,
whose error makes `resolveVariable` return the original match): look the
name up; unknown names stay literal; known values are truncated and
recursively resolved with one less level of budget. -/
def resolveVariable (st : VarStore) : Nat → String → String
  | gas, m =>
    match st.get (extractVariableName m) with
    | none => m
    | some value =>
      match gas with
      | 0 => m
      | g + 1 =>
        String.mk (replaceVarsF (fun m2 => resolveVariable st g m2)
          (truncateIfNeeded value).toList.length (truncateIfNeeded value).toList)

/-- Model of `resolveRecursively`: fails when the depth budget is exhausted, else
replaces every variable reference at this level. -/
def resolveRecursively (st : VarStore) (gas : Nat) (input : String) : Except Err String :=
  match gas with
  | 0 => .error .maxRecursionDepth
  | g + 1 =>
    .ok (String.mk (replaceVarsF (fun m => resolveVariable st g m)
      input.toList.length input.toList))

/-- Model of `Resolve`: empty input passes through; a resolution error falls back to
the original input (the Go top-level call starts at depth 0, so this
fallback is in fact unreachable). -/
def Resolve (st : VarStore) (input : String) : String :=
  if input = "" then input
  else
    match resolveRecursively st maxVariableRecursionDepth input with
    | .error _ => input
    | .ok resolved => resolved

/-! ### Resolver lemmas -/

/-- The scanner leaves a reference-free input unchanged. -/
theorem replaceVarsF_no_ref (f : String → String) :
    ∀ (fuel fuel2 : Nat) (cs : List Char), cs.length ≤ fuel2 →
      hasVarRefF fuel2 cs = false → replaceVarsF f fuel cs = cs := by
  intro fuel
  induction fuel with
  | zero => intro fuel2 cs _ _; rfl
  | succ fuel ih =>
    intro fuel2 cs hlen h
    match cs with
    | [] => rfl
    | c1 :: rest1 =>
      cases fuel2 with
      | zero => exact absurd hlen (by simp)
      | succ f2 =>
        match rest1 with
        | [] => rfl
        | c2 :: rest2 =>
          simp only [hasVarRefF] at h
          simp only [replaceVarsF]
          have hlen1 : (c2 :: rest2).length ≤ f2 := by
            simp only [List.length_cons] at hlen ⊢
            omega
          by_cases hcc : c1 = '$' ∧ c2 = '{'
          · rw [if_pos hcc] at h ⊢
            cases hsp : splitAtRBrace rest2 with
            | some p =>
              obtain ⟨nm, rest'⟩ := p
              rw [hsp] at h
              dsimp only at h
              dsimp only
              by_cases hnm : nm.isEmpty = true
              · rw [if_pos hnm] at h ⊢
                rw [ih f2 (c2 :: rest2) hlen1 h]
              · rw [if_neg hnm] at h
                cases h
            | none =>
              rw [hsp] at h
              dsimp only at h
              rw [ih f2 (c2 :: rest2) hlen1 h]
          · rw [if_neg hcc] at h ⊢
            rw [ih f2 (c2 :: rest2) hlen1 h]

/-- Lemma: `splitAtRBrace` on a name followed by a closing brace, with no
closing brace inside the name, finds
exactly the name. -/
theorem splitAtRBrace_concat (nmL : List Char) (hnb : ¬ '}' ∈ nmL) :
    splitAtRBrace (nmL ++ ['}']) = some (nmL, []) := by
  induction nmL with
  | nil => simp [splitAtRBrace]
  | cons c t ih =>
    have hc : c ≠ '}' := fun hc => hnb (hc ▸ List.mem_cons_self c t)
    have ht : ¬ '}' ∈ t := fun h2 => hnb (List.mem_cons_of_mem c h2)
    simp [splitAtRBrace, if_neg hc, ih ht]

/-- Any fuel suffices for the empty input. -/
theorem replaceVarsF_nil (f : String → String) : ∀ fuel, replaceVarsF f fuel [] = [] := by
  intro fuel
  cases fuel <;> rfl

/-- On the single reference `${name}` (name nonempty, no `'}'` inside), the
scanner produces exactly the callback's output. -/
theorem replaceVarsF_single (f : String → String) (nmL : List Char)
    (hne : nmL ≠ []) (hnb : ¬ '}' ∈ nmL) (fuel : Nat) :
    replaceVarsF f (fuel + 1) ('$' :: '{' :: (nmL ++ ['}'])) =
      (f (String.mk ('$' :: '{' :: (nmL ++ ['}'])))).toList := by
  have hsp := splitAtRBrace_concat nmL hnb
  have hnm : nmL.isEmpty = false := by
    cases nmL with
    | nil => exact absurd rfl hne
    | cons c t => rfl
  simp [replaceVarsF, hsp, hnm, replaceVarsF_nil]

/-- Variant of `replaceVarsF_single` for any positive fuel. -/
theorem replaceVarsF_single' (f : String → String) (nmL : List Char)
    (hne : nmL ≠ []) (hnb : ¬ '}' ∈ nmL) (fuel : Nat) (hf : 1 ≤ fuel) :
    replaceVarsF f fuel ('$' :: '{' :: (nmL ++ ['}'])) =
      (f (String.mk ('$' :: '{' :: (nmL ++ ['}'])))).toList := by
  cases fuel with
  | zero => omega
  | succ n => exact replaceVarsF_single f nmL hne hnb n

/-- Lemma: `resolveVariable` on an unknown identifier returns the match text. -/
theorem resolveVariable_unknown (st : VarStore) (g : Nat) (m : String)
    (h1 : st.get (extractVariableName m) = none) : resolveVariable st g m = m := by
  unfold resolveVariable
  rw [h1]

/-- Lemma: `resolveVariable` on a known identifier with budget left: truncate and
resolve the value one level deeper. -/
theorem resolveVariable_known (st : VarStore) (g : Nat) (m value : String)
    (h1 : st.get (extractVariableName m) = some value) :
    resolveVariable st (g + 1) m =
      String.mk (replaceVarsF (fun m2 => resolveVariable st g m2)
        (truncateIfNeeded value).toList.length (truncateIfNeeded value).toList) := by
  conv_lhs => rw [resolveVariable]
  rw [h1]

/-- The name extracted from the single-reference text `${nm}` is `nm`. -/
theorem extractVariableName_single (nmL : List Char) (hne : nmL ≠ []) :
    extractVariableName (String.mk ('$' :: '{' :: (nmL ++ ['}']))) = String.mk nmL := by
  have hlen : (String.mk ('$' :: '{' :: (nmL ++ ['}']))).length = nmL.length + 3 := by
    show ('$' :: '{' :: (nmL ++ ['}'])).length = nmL.length + 3
    simp only [List.length_cons, List.length_append, List.length_singleton, List.length_nil]
  have hpos : 0 < nmL.length := List.length_pos.mpr hne
  unfold extractVariableName
  rw [if_neg (by omega : ¬ (String.mk ('$' :: '{' :: (nmL ++ ['}']))).length < 4)]
  rw [show (String.mk ('$' :: '{' :: (nmL ++ ['}']))).toList =
        '$' :: '{' :: (nmL ++ ['}']) from rfl]
  rw [show ('$' :: '{' :: (nmL ++ ['}'])).drop 2 = nmL ++ ['}'] from rfl]
  rw [List.dropLast_concat]

/-- The single-reference text is nonempty. -/
theorem singleRef_ne_empty (nmL : List Char) :
    String.mk ('$' :: '{' :: (nmL ++ ['}'])) ≠ "" := by
  intro hEq
  have h2 := congrArg String.length hEq
  rw [show (String.mk ('$' :: '{' :: (nmL ++ ['}']))).length =
        ('$' :: '{' :: (nmL ++ ['}'])).length from rfl,
      show ("" : String).length = 0 from rfl] at h2
  simp at h2

/-! ### C10: Resolve is the identity on variable-free input -/

/-- C10: for every input containing no `${...}` reference (as found by the
resolver's own scanner) and every variable store, `Resolve` returns the
input unchanged. -/
theorem C10_resolve_identity_on_variable_free_input (st : VarStore) (input : String)
    (h : hasVarRef input = false) : Resolve st input = input := by
  unfold Resolve
  by_cases he : input = ""
  · rw [if_pos he]
  · rw [if_neg he, show maxVariableRecursionDepth = 4 + 1 from rfl]
    rw [show resolveRecursively st (4 + 1) input =
      .ok (String.mk (replaceVarsF (fun m => resolveVariable st 4 m)
        input.toList.length input.toList)) from rfl]
    dsimp only
    rw [replaceVarsF_no_ref _ _ input.toList.length input.toList (le_refl _) h]
    rfl

/-- Witness for C10 at a concrete variable-free input and nonempty store. -/
theorem C10_resolve_identity_witness :
    hasVarRef "Hello" = false ∧ Resolve ⟨[("name", "value")]⟩ "Hello" = "Hello" :=
  ⟨by decide, C10_resolve_identity_on_variable_free_input ⟨[("name", "value")]⟩ "Hello"
    (by decide)⟩

/-! ### C4: bounded recursive substitution -/

/-- A five-deep chain of variable references ending in a plain value. -/
def stChain5 : VarStore :=
  ⟨[("a1", "$\x7ba2\x7d"), ("a2", "$\x7ba3\x7d"), ("a3", "$\x7ba4\x7d"),
    ("a4", "$\x7ba5\x7d"), ("a5", "x")]⟩

/-- C4 counterexample: resolving `${a1}` through the five-deep chain
exhausts the recursion depth, yet `Resolve` does NOT return the original
input `${a1}` — it returns the partially resolved `${a5}` (whose value `x`
is present in the store; only the depth cut-off left it literal). The
depth-overflow error is swallowed at the innermost reference, not at the
top level. -/
theorem C4_counterexample_depth_overflow_keeps_partial :
    Resolve stChain5 "$\x7ba1\x7d" = "$\x7ba5\x7d" ∧
    "$\x7ba5\x7d" ≠ "$\x7ba1\x7d" ∧
    stChain5.get "a5" = some "x" := by
  decide

/-- C4 (amended): unknown identifiers are left as the literal
`${identifier}` text; a known identifier is substituted by its value
truncated to 1000 characters (here with no nested reference surviving
truncation, so resolution stops there); and when substitution exceeds the
depth limit of 5, the reference at the limiting depth is left literal and
the partially resolved text — not the original input — is returned, with no
error surfaced. -/
theorem C4_resolve_substitution_behavior :
    (∀ (st : VarStore) (nm : String), nm ≠ "" → ¬ '}' ∈ nm.toList →
       st.get nm = none →
       Resolve st ("$\x7b" ++ nm ++ "\x7d") = "$\x7b" ++ nm ++ "\x7d") ∧
    (∀ (st : VarStore) (nm v : String), nm ≠ "" → ¬ '}' ∈ nm.toList →
       st.get nm = some v → hasVarRef (truncateIfNeeded v) = false →
       Resolve st ("$\x7b" ++ nm ++ "\x7d") = truncateIfNeeded v) ∧
    Resolve stChain5 "$\x7ba1\x7d" = "$\x7ba5\x7d" := by
  refine ⟨?_, ?_, by decide⟩
  · intro st nm hne hnb hget
    obtain ⟨nmL⟩ := nm
    have hneL : nmL ≠ [] := fun hh => hne (by rw [hh])
    rw [show ("$\x7b" ++ String.mk nmL ++ "\x7d") =
          String.mk ('$' :: '{' :: (nmL ++ ['}'])) from rfl]
    unfold Resolve
    rw [if_neg (singleRef_ne_empty nmL), show maxVariableRecursionDepth = 4 + 1 from rfl]
    rw [show resolveRecursively st (4 + 1) (String.mk ('$' :: '{' :: (nmL ++ ['}']))) =
      .ok (String.mk (replaceVarsF (fun m => resolveVariable st 4 m)
        ('$' :: '{' :: (nmL ++ ['}'])).length ('$' :: '{' :: (nmL ++ ['}'])))) from rfl]
    dsimp only
    rw [replaceVarsF_single' _ nmL hneL hnb _ (by simp)]
    have hgetm : st.get (extractVariableName
        (String.mk ('$' :: '{' :: (nmL ++ ['}'])))) = none := by
      simp only [extractVariableName_single nmL hneL, hget]
    rw [resolveVariable_unknown st 4 _ hgetm]
    rfl
  · intro st nm v hne hnb hget hval
    obtain ⟨nmL⟩ := nm
    have hneL : nmL ≠ [] := fun hh => hne (by rw [hh])
    rw [show ("$\x7b" ++ String.mk nmL ++ "\x7d") =
          String.mk ('$' :: '{' :: (nmL ++ ['}'])) from rfl]
    unfold Resolve
    rw [if_neg (singleRef_ne_empty nmL), show maxVariableRecursionDepth = 4 + 1 from rfl]
    rw [show resolveRecursively st (4 + 1) (String.mk ('$' :: '{' :: (nmL ++ ['}']))) =
      .ok (String.mk (replaceVarsF (fun m => resolveVariable st 4 m)
        ('$' :: '{' :: (nmL ++ ['}'])).length ('$' :: '{' :: (nmL ++ ['}'])))) from rfl]
    dsimp only
    rw [replaceVarsF_single' _ nmL hneL hnb _ (by simp)]
    rw [show (4 : Nat) = 3 + 1 from rfl]
    have hgetm : st.get (extractVariableName
        (String.mk ('$' :: '{' :: (nmL ++ ['}'])))) = some v := by
      simp only [extractVariableName_single nmL hneL, hget]
    rw [resolveVariable_known st 3 _ v hgetm]
    rw [replaceVarsF_no_ref _ _ (truncateIfNeeded v).toList.length
        (truncateIfNeeded v).toList (le_refl _) hval]
    rfl

/-- Witness for C4 at concrete inputs: an unset name stays literal, and a
set name is substituted. -/
theorem C4_resolve_substitution_behavior_witness :
    Resolve ⟨[]⟩ ("$\x7b" ++ "name" ++ "\x7d") = "$\x7b" ++ "name" ++ "\x7d" ∧
    Resolve ⟨[("name", "value")]⟩ ("$\x7b" ++ "name" ++ "\x7d") =
      truncateIfNeeded "value" :=
  ⟨C4_resolve_substitution_behavior.1 ⟨[]⟩ "name" (by decide) (by decide) (by decide),
   C4_resolve_substitution_behavior.2.1 ⟨[("name", "value")]⟩ "name" "value"
     (by decide) (by decide) (by decide) (by decide)⟩

/-! ### C5: CalculateExecutionOrder returns a permutation on acyclic forests

Acyclicity of the single-parent forest is expressed through the height of
the parent chain: `heightF dep fuel n` computes how many `dependsOn` steps
lead from `n` to a root, with enough fuel; a node lies on no cycle exactly
when this is defined with fuel `|names| + 1`. -/

/-- Fueled parent-chain height: `some k` when the chain from `n` reaches a
root in `k` steps within the fuel. -/
def heightF (dep : String → Option String) : Nat → String → Option Nat
  | 0, _ => none
  | fuel + 1, n =>
    match dep n with
    | none => some 0
    | some p => (heightF dep fuel p).map (· + 1)

/-- Unfolding equation for `heightF` with fuel left. -/
theorem heightF_succ (dep : String → Option String) (f : Nat) (n : String) :
    heightF dep (f + 1) n =
      match dep n with
      | none => some 0
      | some p => (heightF dep f p).map (· + 1) := rfl

/-- More fuel preserves a defined height. -/
theorem heightF_mono (dep : String → Option String) :
    ∀ (f : Nat) (n : String) (h : Nat), heightF dep f n = some h →
      heightF dep (f + 1) n = some h := by
  intro f
  induction f with
  | zero => intro n h hh; simp [heightF] at hh
  | succ f ihf =>
    intro n h hh
    rw [heightF_succ] at hh
    rw [heightF_succ]
    cases hdep : dep n with
    | none =>
      rw [hdep] at hh
      exact hh
    | some p =>
      rw [hdep] at hh
      dsimp only at hh ⊢
      cases hq : heightF dep f p with
      | none => rw [hq] at hh; simp at hh
      | some q =>
        rw [hq] at hh
        rw [ihf p q hq]
        exact hh

/-- Unfolding equation for `visit` with fuel left. -/
theorem visit_succ (dep : String → Option String) (fuel : Nat) (name : String) (st : DState) :
    visit dep (fuel + 1) name st =
      if name ∈ st.visiting then
        some (.error (.wrapped ("cyclic dependency detected with request " ++ name)
                               .cyclicDependency))
      else if name ∈ st.visited then some (.ok st)
      else
        match (match dep name with
               | some d => visit dep fuel d { st with visiting := name :: st.visiting }
               | none => some (.ok { st with visiting := name :: st.visiting })) with
        | none => none
        | some (.error e) => some (.error e)
        | some (.ok st2) =>
          some (.ok { result := st2.result ++ [name]
                      visited := name :: st2.visited
                      visiting := st2.visiting.erase name }) := rfl

/-- Unfolding equation for one step of the `CalculateExecutionOrder` loop. -/
theorem calcLoop_cons (dep : String → Option String) (fuel : Nat) (n : String)
    (rest : List String) (st : DState) :
    calcLoop dep fuel (n :: rest) st =
      match visit dep fuel n st with
      | none => none
      | some (.error e) => some (.error e)
      | some (.ok st') => calcLoop dep fuel rest st' := rfl

/-- Main invariant of `visit` on a rank-decreasing (hence acyclic) forest:
with the stated fuel budget, `visit` succeeds, restores `visiting`, grows
`visited` (nodup, within `names`, by nodes of rank at most `r name`,
including `name` itself), and keeps `visited` equal to the reversed
`result` accumulator. -/
theorem visit_ok (names : List String) (dep : String → Option String)
    (hclosed : ∀ n ∈ names, ∀ p, dep n = some p → p ∈ names)
    (r : String → Nat) (hr : ∀ n ∈ names, ∀ p, dep n = some p → r p < r n) :
    ∀ (fuel : Nat) (name : String) (st : DState),
      name ∈ names →
      st.visiting.Nodup → (∀ x ∈ st.visiting, x ∈ names) →
      (∀ x ∈ st.visiting, r name < r x) →
      st.visited.Nodup → (∀ x ∈ st.visited, x ∈ names) →
      st.visited = st.result.reverse →
      names.length + 1 ≤ fuel + st.visiting.length →
      ∃ st' : DState,
        visit dep fuel name st = some (.ok st') ∧
        st'.visiting = st.visiting ∧
        st'.visited.Nodup ∧
        (∀ x ∈ st'.visited, x ∈ names) ∧
        (∀ x ∈ st.visited, x ∈ st'.visited) ∧
        name ∈ st'.visited ∧
        (∀ x ∈ st'.visited, x ∈ st.visited ∨ r x ≤ r name) ∧
        st'.visited = st'.result.reverse := by
  intro fuel
  induction fuel with
  | zero =>
    intro name st _ hvnd hvsub _ _ _ _ hfuel
    have hle := (List.subperm_of_subset hvnd hvsub).length_le
    omega
  | succ fuel ih =>
    intro name st hn hvnd hvsub hvr hdnd hdsub hvres hfuel
    rw [visit_succ]
    have hnin : name ∉ st.visiting := fun hmem => absurd (hvr name hmem) (lt_irrefl _)
    rw [if_neg hnin]
    by_cases hna : name ∈ st.visited
    · rw [if_pos hna]
      exact ⟨st, rfl, rfl, hdnd, hdsub, fun x hx => hx, hna, fun x hx => Or.inl hx, hvres⟩
    · rw [if_neg hna]
      cases hdep : dep name with
      | none =>
        refine ⟨{ result := st.result ++ [name], visited := name :: st.visited
                  visiting := (name :: st.visiting).erase name }, rfl,
                List.erase_cons_head name st.visiting, List.nodup_cons.mpr ⟨hna, hdnd⟩,
                ?_, ?_, List.mem_cons_self _ _, ?_, ?_⟩
        · intro x hx
          rcases List.mem_cons.mp hx with rfl | hx2
          · exact hn
          · exact hdsub x hx2
        · intro x hx
          exact List.mem_cons_of_mem _ hx
        · intro x hx
          rcases List.mem_cons.mp hx with rfl | hx2
          · exact Or.inr (le_refl _)
          · exact Or.inl hx2
        · simp [List.reverse_append, hvres]
      | some d =>
        have hd : d ∈ names := hclosed name hn d hdep
        obtain ⟨st2, hvisit2, hviseq, hnd2, hsub2, hmono2, hdin2, hnew2, hres2⟩ :=
          ih d { st with visiting := name :: st.visiting } hd
            (List.nodup_cons.mpr ⟨hnin, hvnd⟩)
            (fun x hx => by
              rcases List.mem_cons.mp hx with hx1 | hx2
              · rw [hx1]; exact hn
              · exact hvsub x hx2)
            (fun x hx => by
              rcases List.mem_cons.mp hx with hx1 | hx2
              · rw [hx1]; exact hr name hn d hdep
              · exact lt_trans (hr name hn d hdep) (hvr x hx2))
            hdnd hdsub hvres
            (by simp only [List.length_cons]; omega)
        have hnotin2 : name ∉ st2.visited := by
          intro hmem
          rcases hnew2 name hmem with h1 | h2
          · exact hna h1
          · exact absurd (lt_of_le_of_lt h2 (hr name hn d hdep)) (lt_irrefl _)
        refine ⟨{ result := st2.result ++ [name], visited := name :: st2.visited
                  visiting := st2.visiting.erase name }, ?_, ?_,
                List.nodup_cons.mpr ⟨hnotin2, hnd2⟩, ?_, ?_,
                List.mem_cons_self _ _, ?_, ?_⟩
        · dsimp only
          rw [hvisit2]
        · rw [hviseq]
          exact List.erase_cons_head name st.visiting
        · intro x hx
          rcases List.mem_cons.mp hx with rfl | hx2
          · exact hn
          · exact hsub2 x hx2
        · intro x hx
          exact List.mem_cons_of_mem _ (hmono2 x hx)
        · intro x hx
          rcases List.mem_cons.mp hx with rfl | hx2
          · exact Or.inr (le_refl _)
          · rcases hnew2 x hx2 with h1 | h2
            · exact Or.inl h1
            · exact Or.inr (le_of_lt (lt_of_le_of_lt h2 (hr name hn d hdep)))
        · simp [List.reverse_append, hres2]

/-- The `CalculateExecutionOrder` loop visits every listed name. -/
theorem calcLoop_ok (names : List String) (dep : String → Option String)
    (hclosed : ∀ n ∈ names, ∀ p, dep n = some p → p ∈ names)
    (r : String → Nat) (hr : ∀ n ∈ names, ∀ p, dep n = some p → r p < r n) :
    ∀ (order : List String) (st : DState),
      (∀ x ∈ order, x ∈ names) →
      st.visiting = [] →
      st.visited.Nodup → (∀ x ∈ st.visited, x ∈ names) →
      st.visited = st.result.reverse →
      ∃ st', calcLoop dep (names.length + 1) order st = some (.ok st') ∧
        st'.visiting = [] ∧ st'.visited.Nodup ∧ (∀ x ∈ st'.visited, x ∈ names) ∧
        (∀ x ∈ st.visited, x ∈ st'.visited) ∧ (∀ x ∈ order, x ∈ st'.visited) ∧
        st'.visited = st'.result.reverse := by
  intro order
  induction order with
  | nil =>
    intro st _ hvis hnd hsub hres
    exact ⟨st, rfl, hvis, hnd, hsub, fun x hx => hx, fun x hx => absurd hx (List.not_mem_nil x),
      hres⟩
  | cons n rest ihr =>
    intro st hord hvis hnd hsub hres
    obtain ⟨st2, hvisit2, hviseq, hnd2, hsub2, hmono2, hnin2, _, hres2⟩ :=
      visit_ok names dep hclosed r hr (names.length + 1) n st
        (hord n (List.mem_cons_self _ _))
        (hvis ▸ List.nodup_nil) (fun x hx => absurd (hvis ▸ hx) (List.not_mem_nil x))
        (fun x hx => absurd (hvis ▸ hx) (List.not_mem_nil x))
        hnd hsub hres (by rw [hvis]; simp)
    obtain ⟨st3, hloop3, hvis3, hnd3, hsub3, hmono3, hall3, hres3⟩ :=
      ihr st2 (fun x hx => hord x (List.mem_cons_of_mem _ hx))
        (hviseq.trans hvis) hnd2 hsub2 hres2
    refine ⟨st3, ?_, hvis3, hnd3, hsub3,
      fun x hx => hmono3 x (hmono2 x hx), ?_, hres3⟩
    · rw [calcLoop_cons, hvisit2]
      exact hloop3
    · intro x hx
      rcases List.mem_cons.mp hx with rfl | hx2
      · exact hmono3 x hnin2
      · exact hall3 x hx2

/-- C5: on every cycle-free dependency forest — every `dependsOn` target
exists among the (distinct) request names and every parent chain reaches a
root, expressed by the chain height being defined — `CalculateExecutionOrder`
succeeds, for every iteration order of the request map, and returns a
permutation of all request names. -/
theorem C5_execution_order_is_permutation (names : List String)
    (dep : String → Option String)
    (hnd : names.Nodup)
    (hclosed : ∀ n ∈ names, ∀ p, dep n = some p → p ∈ names)
    (hacyc : ∀ n ∈ names, (heightF dep (names.length + 1) n).isSome = true)
    (order : List String) (horder : order.Perm names) :
    ∃ res, CalculateExecutionOrder false dep order = some (.ok res) ∧ res.Perm names := by
  have hr : ∀ n ∈ names, ∀ p, dep n = some p →
      (heightF dep (names.length + 1) p).getD 0 < (heightF dep (names.length + 1) n).getD 0 := by
    intro n hn p hp
    obtain ⟨h, hh⟩ := Option.isSome_iff_exists.mp (hacyc n hn)
    have hh2 := hh
    simp only [heightF, hp] at hh2
    cases hq : heightF dep names.length p with
    | none => rw [hq] at hh2; cases hh2
    | some q =>
      rw [hq] at hh2
      simp only [Option.map_some'] at hh2
      have hq1 := Option.some.inj hh2
      have hpq := heightF_mono dep names.length p q hq
      rw [hh, hpq]
      simp only [Option.getD_some]
      omega
  obtain ⟨st', hloop, _, hnd', hsub', _, hall', hres'⟩ :=
    calcLoop_ok names dep hclosed (fun n => (heightF dep (names.length + 1) n).getD 0) hr
      order ⟨[], [], []⟩ (fun x hx => horder.subset hx) rfl List.nodup_nil
      (fun x hx => absurd hx (List.not_mem_nil x)) rfl
  refine ⟨st'.result.reverse, ?_, ?_⟩
  · unfold CalculateExecutionOrder
    rw [if_neg (by simp), horder.length_eq, hloop]
  · rw [← hres']
    refine List.Subperm.antisymm (List.subperm_of_subset hnd' hsub')
      (List.subperm_of_subset hnd ?_)
    intro x hx
    exact hall' x (horder.symm.subset hx)

/-- Witness for C5 at the three-request chain of C1. -/
theorem C5_execution_order_is_permutation_witness :
    ∃ res, CalculateExecutionOrder false
        (fun n => ([("A2", "A1"), ("A1", "root")] : List (String × String)).lookup n)
        ["root", "A1", "A2"] = some (.ok res) ∧ res.Perm ["root", "A1", "A2"] :=
  C5_execution_order_is_permutation ["root", "A1", "A2"]
    (fun n => ([("A2", "A1"), ("A1", "root")] : List (String × String)).lookup n)
    (by decide)
    (by
      intro n hn p hp
      rcases List.mem_cons.mp hn with rfl | hn2
      · exact Option.noConfusion hp
      · rcases List.mem_cons.mp hn2 with rfl | hn3
        · injection hp with hpe
          rw [← hpe]
          decide
        · rcases List.mem_singleton.mp hn3 with rfl
          injection hp with hpe
          rw [← hpe]
          decide)
    (by decide) ["root", "A1", "A2"] (List.Perm.refl _)

end Jak
